import Mathlib

/-!
Verification of the webrisk client core against its natural-language
specification.  The transport layer (`api.go`, given here as
`src/unnamed/part_001`) is embedded directly; components of the repository
whose sources are not available (database, hash codec, result cache,
update scheduler, lookup engine, server shutdown) are modelled from the
specification, as marked on each definition.
-/

namespace Webrisk

/-! ### SHA-256 over byte lists (words are `Nat` reduced mod `2 ^ 32`) -/

def w32 : Nat := 4294967296

def rotr32 (x n : Nat) : Nat := ((x >>> n) ||| (x <<< (32 - n))) % w32

def shaCh (x y z : Nat) : Nat := (x &&& y) ^^^ ((x ^^^ (w32 - 1)) &&& z)

def shaMaj (x y z : Nat) : Nat := (x &&& y) ^^^ (x &&& z) ^^^ (y &&& z)

def bigSigma0 (x : Nat) : Nat := rotr32 x 2 ^^^ rotr32 x 13 ^^^ rotr32 x 22

def bigSigma1 (x : Nat) : Nat := rotr32 x 6 ^^^ rotr32 x 11 ^^^ rotr32 x 25

def smallSigma0 (x : Nat) : Nat := rotr32 x 7 ^^^ rotr32 x 18 ^^^ (x >>> 3)

def smallSigma1 (x : Nat) : Nat := rotr32 x 17 ^^^ rotr32 x 19 ^^^ (x >>> 10)

def shaK : List Nat :=
  [1116352408, 1899447441, 3049323471, 3921009573, 961987163, 1508970993,
   2453635748, 2870763221, 3624381080, 310598401, 607225278, 1426881987,
   1925078388, 2162078206, 2614888103, 3248222580, 3835390401, 4022224774,
   264347078, 604807628, 770255983, 1249150122, 1555081692, 1996064986,
   2554220882, 2821834349, 2952996808, 3210313671, 3336571891, 3584528711,
   113926993, 338241895, 666307205, 773529912, 1294757372, 1396182291,
   1695183700, 1986661051, 2177026350, 2456956037, 2730485921, 2820302411,
   3259730800, 3345764771, 3516065817, 3600352804, 4094571909, 275423344,
   430227734, 506948616, 659060556, 883997877, 958139571, 1322822218,
   1537002063, 1747873779, 1955562222, 2024104815, 2227730452, 2361852424,
   2428436474, 2756734187, 3204031479, 3329325298]

def shaH0 : List Nat :=
  [1779033703, 3144134277, 1013904242, 2773480762,
   1359893119, 2600822924, 528734635, 1541459225]

/-- Pad a byte message per SHA-256: append `0x80`, zeros, and the 64-bit bit length. -/
def shaPad (msg : List Nat) : List Nat :=
  let len := msg.length
  let zeros := (55 + 64 - len % 64) % 64
  let bitLen := len * 8
  msg ++ [0x80] ++ List.replicate zeros 0 ++
    [(bitLen >>> 56) % 256, (bitLen >>> 48) % 256, (bitLen >>> 40) % 256, (bitLen >>> 32) % 256,
     (bitLen >>> 24) % 256, (bitLen >>> 16) % 256, (bitLen >>> 8) % 256, bitLen % 256]

/-- Split a list into 64-byte chunks; the fuel argument keeps the recursion structural. -/
def chunksFuel : Nat → List Nat → List (List Nat)
  | 0, _ => []
  | _, [] => []
  | fuel + 1, x :: xs => (x :: xs).take 64 :: chunksFuel fuel ((x :: xs).drop 64)

def chunks64 (l : List Nat) : List (List Nat) := chunksFuel l.length l

/-- Big-endian 32-bit words from bytes (length is a multiple of 4 after padding). -/
def toWords : List Nat → List Nat
  | b0 :: b1 :: b2 :: b3 :: rest => (((b0 * 256 + b1) * 256 + b2) * 256 + b3) :: toWords rest
  | _ => []

/-- Message schedule: extend the 16 block words by 48 more. -/
def extendSchedule (ws : List Nat) : Nat → List Nat
  | 0 => ws
  | n + 1 =>
    let ws' := extendSchedule ws n
    let t := 16 + n
    let get := fun j => ws'.getD j 0
    ws' ++ [(smallSigma1 (get (t - 2)) + get (t - 7) + smallSigma0 (get (t - 15)) + get (t - 16)) % w32]

def schedule (block : List Nat) : List Nat := extendSchedule (toWords block) 48

/-- One SHA-256 compression round on the eight-word state. -/
def shaRound (st : List Nat) (kw : Nat × Nat) : List Nat :=
  match st with
  | [a, b, c, d, e, f, g, h] =>
    let t1 := (h + bigSigma1 e + shaCh e f g + kw.1 + kw.2) % w32
    let t2 := (bigSigma0 a + shaMaj a b c) % w32
    [(t1 + t2) % w32, a, b, c, (d + t1) % w32, e, f, g]
  | other => other

def compress (h : List Nat) (block : List Nat) : List Nat :=
  let st := (shaK.zip (schedule block)).foldl shaRound h
  (h.zip st).map (fun p => (p.1 + p.2) % w32)

def wordToBytes (x : Nat) : List Nat := [(x >>> 24) % 256, (x >>> 16) % 256, (x >>> 8) % 256, x % 256]

/-- SHA-256 digest of a byte message, as 32 bytes. -/
def sha256 (msg : List Nat) : List Nat :=
  ((chunks64 (shaPad msg)).foldl compress shaH0).foldr (fun x acc => wordToBytes x ++ acc) []

/-! ### Standard base64 (Go `encoding/base64` `StdEncoding`, with `=` padding) -/

def b64Alphabet : List Char :=
  "ABCDEFGHIJKLMNOPQRSTUVWXYZabcdefghijklmnopqrstuvwxyz0123456789+/".toList

def b64Char (n : Nat) : Char := b64Alphabet.getD n '?'

def base64Chars : List Nat → List Char
  | [] => []
  | [b0] => [b64Char (b0 >>> 2), b64Char ((b0 % 4) <<< 4), '=', '=']
  | [b0, b1] =>
    [b64Char (b0 >>> 2), b64Char (((b0 % 4) <<< 4) ||| (b1 >>> 4)),
     b64Char ((b1 % 16) <<< 2), '=']
  | b0 :: b1 :: b2 :: rest =>
    b64Char (b0 >>> 2) :: b64Char (((b0 % 4) <<< 4) ||| (b1 >>> 4)) ::
    b64Char (((b1 % 16) <<< 2) ||| (b2 >>> 6)) :: b64Char (b2 % 64) :: base64Chars rest

/-- `base64.StdEncoding.EncodeToString` on a byte slice. -/
def base64Std (bytes : List Nat) : String := String.mk (base64Chars bytes)

/-! ### `net/url` query values (`url.Values` is `map[string][]string`)

Modelled as an association list; `set` replaces all values of a key with a
singleton, `add` appends one value, `get` returns the values of a key. -/

def Values : Type := List (String × List String)

def Values.set : Values → String → String → Values
  | [], k, v => [(k, [v])]
  | (k', vs) :: rest, k, v =>
    if k' = k then (k, [v]) :: rest else (k', vs) :: Values.set rest k v

def Values.add : Values → String → String → Values
  | [], k, v => [(k, [v])]
  | (k', vs) :: rest, k, v =>
    if k' = k then (k', vs ++ [v]) :: rest else (k', vs) :: Values.add rest k v

def Values.get : Values → String → Option (List String)
  | [], _ => none
  | (k', vs) :: rest, k => if k' = k then some vs else Values.get rest k

def Values.keys (q : Values) : List String := q.map Prod.fst

/-! ### Web Risk protocol types (`internal/webrisk_proto`) -/

inductive ThreatType where
  | unspecified
  | malware
  | socialEngineering
  | unwantedSoftware
  | socialEngineeringExtendedCoverage
  deriving DecidableEq

/-- The protobuf enum value name, as produced by `ThreatType.String()`. -/
def ThreatType.protoName : ThreatType → String
  | .unspecified => "THREAT_TYPE_UNSPECIFIED"
  | .malware => "MALWARE"
  | .socialEngineering => "SOCIAL_ENGINEERING"
  | .unwantedSoftware => "UNWANTED_SOFTWARE"
  | .socialEngineeringExtendedCoverage => "SOCIAL_ENGINEERING_EXTENDED_COVERAGE"

inductive CompressionType where
  | unspecified
  | raw
  | rice
  deriving DecidableEq

/-- The protobuf enum value name, as produced by `CompressionType.String()`. -/
def CompressionType.protoName : CompressionType → String
  | .unspecified => "COMPRESSION_TYPE_UNSPECIFIED"
  | .raw => "RAW"
  | .rice => "RICE"

structure Constraints where
  maxDiffEntries : Int
  maxDatabaseEntries : Int
  supportedCompressions : List CompressionType
  deriving DecidableEq

structure ComputeThreatListDiffRequest where
  threatType : ThreatType
  versionToken : List Nat
  constraints : Option Constraints
  deriving DecidableEq

/-- `req.GetConstraints().GetSupportedCompressions()`: nil constraints yield the empty list. -/
def ComputeThreatListDiffRequest.getSupportedCompressions
    (req : ComputeThreatListDiffRequest) : List CompressionType :=
  match req.constraints with
  | some c => c.supportedCompressions
  | none => []

/-! ### `netAPI` request construction (from `netAPI.ListUpdate` / `netAPI.HashLookup`) -/

def threatTypeString : String := "threat_type"

def versionTokenString : String := "version_token"

def supportedCompressionsString : String := "constraints.supported_compressions"

def hashPrefixString : String := "hash_prefix"

def threatTypesString : String := "threat_types"

/-- The query stored on the `netAPI` URL by `newNetAPI`: just the API key. -/
def baseQuery (apiKey : String) : Values := Values.set [] "key" apiKey

/-- Query-parameter construction of `netAPI.ListUpdate`: sets `threat_type`,
sets `version_token` (base64 of the token) only when the token is non-empty,
and adds one `constraints.supported_compressions` value per compression type. -/
def listUpdateQuery (base : Values) (req : ComputeThreatListDiffRequest) : Values :=
  let q := base
  let q := q.set threatTypeString req.threatType.protoName
  let q :=
    if req.versionToken.length ≠ 0 then
      q.set versionTokenString (base64Std req.versionToken)
    else q
  req.getSupportedCompressions.foldl (fun q ct => q.add supportedCompressionsString ct.protoName) q

/-- Query-parameter construction of `netAPI.HashLookup`: sets `hash_prefix`
(base64 of the single prefix) and adds one `threat_types` value per threat type. -/
def hashLookupQuery (base : Values) (pfx : List Nat) (threatTypes : List ThreatType) : Values :=
  let q := base
  let q := q.set hashPrefixString (base64Std pfx)
  threatTypes.foldl (fun q tt => q.add threatTypesString tt.protoName) q

/-! ### `netAPI.doRequest` / `netAPI.parseError`

The HTTP exchange is embedded as the data `doRequest` inspects: the response
status code, the result of decoding the body as the `http_error_proto` error
message (`status` and `message` fields), and the result of decoding the body
as the expected response message. -/

structure HTTPResponse (α : Type) where
  statusCode : Nat
  /-- Outcome of `protojson.Unmarshal` of the body into the error proto. -/
  errBody : Option (String × String)
  /-- Outcome of `protojson.Unmarshal` of the body into the response proto. -/
  resultBody : Option α

inductive APIError where
  /-- `parseError` when the body decodes: code, status and message. -/
  | serverResponse (code : Nat) (status message : String)
  /-- `parseError` when the body does not decode as the error proto. -/
  | unknownServer (code : Nat)
  /-- `protojson.Unmarshal` failure on a 200 response. -/
  | malformedBody
  deriving DecidableEq

/-- `netAPI.parseError`: decode the body as the error proto; on success report
code, status and message, otherwise only the code. -/
def parseError (code : Nat) (errBody : Option (String × String)) : APIError :=
  match errBody with
  | some (st, msg) => .serverResponse code st msg
  | none => .unknownServer code

/-- `netAPI.doRequest` after the HTTP roundtrip: any status other than 200 is
turned into `parseError`'s error without unmarshalling the response message;
a 200 status unmarshals the body as the response. -/
def doRequest {α : Type} (resp : HTTPResponse α) : Except APIError α :=
  if resp.statusCode ≠ 200 then
    .error (parseError resp.statusCode resp.errBody)
  else
    match resp.resultBody with
    | some m => .ok m
    | none => .error .malformedBody

/-! ### ThreatList and ApplyDiff

Modelled from the spec: the repository's `database.go` / `threatList` sources
are not available here; `ApplyDiff` follows §4.2 of the spec — remove entries
at the removal indices of the old sorted order (an out-of-range index is a
fatal protocol error), merge-insert the additions, re-sort, de-duplicate,
recompute the SHA-256 checksum over the concatenated sorted result and
compare it with the advertised checksum. -/

/-- Strict lexicographic byte-string order (`bytes.Compare < 0`). -/
def lexLt : List Nat → List Nat → Bool
  | [], [] => false
  | [], _ :: _ => true
  | _ :: _, [] => false
  | a :: as, b :: bs => if a < b then true else if b < a then false else lexLt as bs

/-- Non-strict lexicographic byte-string order (`bytes.Compare <= 0`). -/
def lexLe : List Nat → List Nat → Bool
  | [], _ => true
  | _ :: _, [] => false
  | a :: as, b :: bs => if a < b then true else if b < a then false else lexLe as bs

def byteLt (a b : List Nat) : Prop := lexLt a b = true

def byteLe (a b : List Nat) : Prop := lexLe a b = true

instance : DecidableRel byteLt := fun a b => inferInstanceAs (Decidable (lexLt a b = true))

instance : DecidableRel byteLe := fun a b => inferInstanceAs (Decidable (lexLe a b = true))

theorem lexLt_trans : ∀ {a b c : List Nat},
    lexLt a b = true → lexLt b c = true → lexLt a c = true := by
  intro a
  induction a with
  | nil =>
    intro b c h1 h2
    cases b with
    | nil => simp [lexLt] at h1
    | cons y ys =>
      cases c with
      | nil => simp [lexLt] at h2
      | cons z zs => simp [lexLt]
  | cons x xs ih =>
    intro b c h1 h2
    cases b with
    | nil => simp [lexLt] at h1
    | cons y ys =>
      cases c with
      | nil => simp [lexLt] at h2
      | cons z zs =>
        simp only [lexLt] at h1 h2 ⊢
        split_ifs at h1 h2 ⊢ <;>
          first
            | rfl
            | omega
            | (exact ih h1 h2)

instance : IsTrans (List Nat) byteLt := ⟨fun _ _ _ => lexLt_trans⟩

instance decEqExcept {ε α : Type} [DecidableEq ε] [DecidableEq α] :
    DecidableEq (Except ε α) := fun x y =>
  match x, y with
  | .ok a, .ok b =>
    if h : a = b then .isTrue (by rw [h]) else .isFalse (by intro hc; cases hc; exact h rfl)
  | .ok _, .error _ => .isFalse (by intro hc; cases hc)
  | .error _, .ok _ => .isFalse (by intro hc; cases hc)
  | .error e, .error e' =>
    if h : e = e' then .isTrue (by rw [h]) else .isFalse (by intro hc; cases hc; exact h rfl)

/-- Re-sort and de-duplicate a prefix collection: insertion sort under the
lexicographic order, then removal of (now adjacent) duplicates. -/
def sortDedup (l : List (List Nat)) : List (List Nat) :=
  (l.insertionSort byteLe).destutter byteLt

structure ThreatList where
  prefixes : List (List Nat)
  versionToken : List Nat
  checksum : List Nat
  deriving DecidableEq

structure ThreatDiff where
  removals : List Nat
  additions : List (List Nat)
  newVersionToken : List Nat
  newChecksum : List Nat
  deriving DecidableEq

inductive DiffError where
  | badRemovalIndex
  | checksumMismatch
  deriving DecidableEq

/-- Drop the entries of `l` sitting at the positions listed in `idxs`. -/
def removeIndices (l : List (List Nat)) (idxs : List Nat) : List (List Nat) :=
  (l.enum.filter (fun p => decide (p.1 ∉ idxs))).map Prod.snd

/-- The merged sorted result of a diff: old prefixes with the removal indices
dropped, the additions merged in, re-sorted and de-duplicated. -/
def mergeResult (old : ThreatList) (d : ThreatDiff) : List (List Nat) :=
  sortDedup (removeIndices old.prefixes d.removals ++ d.additions)

/-- Modelled from the spec: `ApplyDiff` (§4.2). -/
def ThreatList.applyDiff (old : ThreatList) (d : ThreatDiff) : Except DiffError ThreatList :=
  if d.removals.all (fun i => decide (i < old.prefixes.length)) then
    let merged := mergeResult old d
    if sha256 merged.flatten = d.newChecksum then
      .ok { prefixes := merged, versionToken := d.newVersionToken, checksum := d.newChecksum }
    else
      .error .checksumMismatch
  else
    .error .badRemovalIndex

/-- Modelled from the spec: the `Database` owns one `ThreatList` per threat type. -/
def Database : Type := ThreatType → ThreatList

/-- Modelled from the spec: a successful diff atomically replaces the one list;
any `ApplyDiff` error leaves the database untouched. -/
def Database.update (db : Database) (tt : ThreatType) (d : ThreatDiff) : Database :=
  match (db tt).applyDiff d with
  | .ok l => fun t => if t = tt then l else db t
  | .error _ => db

/-- Apply a sequence of diffs, stopping at the first error. -/
def applyDiffs (l : ThreatList) : List ThreatDiff → Except DiffError ThreatList
  | [] => .ok l
  | d :: ds =>
    match l.applyDiff d with
    | .ok l' => applyDiffs l' ds
    | .error e => .error e

/-- The ThreatList invariant of §3 / §8: the checksum is the SHA-256 of the
concatenated prefixes, and the prefixes are strictly ascending (hence unique)
in lexicographic order. -/
def listInvariant (l : ThreatList) : Prop :=
  l.checksum = sha256 l.prefixes.flatten ∧ l.prefixes.Pairwise byteLt

/-! ### HashCodec candidate expressions

Modelled from the spec: the repository's `hash.go` is not available here;
`CandidateExpressions` follows §4.1 — host variants are the full canonical
host plus up to 4 trailing-label suffixes of at least 2 labels; path variants
are the full path+query plus up to 5 leading-path-segment prefixes, always
including the bare `/` form. -/

structure CanonicalURL where
  hostLabels : List String
  pathSegments : List String
  query : Option String

def hostString (labels : List String) : String := String.intercalate "." labels

def pathString (segs : List String) : String := "/" ++ String.intercalate "/" segs

def fullPathQuery (segs : List String) (query : Option String) : String :=
  match query with
  | some q => pathString segs ++ "?" ++ q
  | none => pathString segs

/-- Up to 4 proper trailing-label suffixes of the host, each of at least 2 labels. -/
def trailingSuffixes (labels : List String) : List (List String) :=
  ((List.range 4).map (fun i => labels.drop (labels.length - (i + 2)))).filter
    (fun s => decide (s.length < labels.length))

def hostVariants (labels : List String) : List (List String) :=
  labels :: trailingSuffixes labels

/-- The `/`-rooted leading-segment path forms, from bare `/` up to the full path. -/
def leadingPaths (segs : List String) : List String :=
  (List.range (segs.length + 1)).map (fun k => pathString (segs.take k))

def pathVariants (segs : List String) (query : Option String) : List String :=
  fullPathQuery segs query :: (leadingPaths segs).take 5

/-- Modelled from the spec: `CandidateExpressions` (§4.1), the suffix-host /
prefix-path expansion of a canonical URL. -/
def candidateExpressions (u : CanonicalURL) : List String :=
  (hostVariants u.hostLabels).flatMap
    (fun hv => (pathVariants u.pathSegments u.query).map (fun pv => hostString hv ++ pv))

/-! ### ResultCache

Modelled from the spec: the repository's cache source is not available here;
`Lookup`/`Store` follow §4.4 — `Lookup` misses when no entry exists or
`now >= expireTime`, `Store` inserts/overwrites with `expireTime = now + ttl`,
and an entry with an empty threat-type set is an authoritative negative hit. -/

structure CacheEntry where
  threatTypes : List ThreatType
  expireTime : Nat
  deriving DecidableEq

def ResultCache : Type := List (List Nat × CacheEntry)

inductive CacheResult where
  | hit (threatTypes : List ThreatType)
  | miss
  deriving DecidableEq

def cacheFind : ResultCache → List Nat → Option CacheEntry
  | [], _ => none
  | (k, e) :: rest, h => if k = h then some e else cacheFind rest h

/-- Modelled from the spec: `Store(fullHash, threatTypes, ttl)` (§4.4). -/
def cacheStore (c : ResultCache) (now : Nat) (h : List Nat) (tts : List ThreatType)
    (ttl : Nat) : ResultCache :=
  (h, { threatTypes := tts, expireTime := now + ttl }) :: c

/-- Modelled from the spec: `Lookup(fullHash)` (§4.4). -/
def cacheLookup (c : ResultCache) (now : Nat) (h : List Nat) : CacheResult :=
  match cacheFind c h with
  | some e => if now < e.expireTime then .hit e.threatTypes else .miss
  | none => .miss

/-! ### UpdateScheduler backoff

Modelled from the spec: the scheduler source is not available here; §4.3 —
on failure `consecutiveFailures` is incremented and
`currentBackoff = min(maxBackoff, baseBackoff * 2^consecutiveFailures)` with
added jitter; on success `consecutiveFailures` resets to 0 and the backoff to
its baseline.  The jitter is a fraction `j / den` with `j < den`, applied
under the cap, and backoff values are kept scaled by `den`. -/

structure UpdateState where
  consecutiveFailures : Nat
  currentBackoff : Nat
  nextUpdateTime : Nat
  deriving DecidableEq

/-- `min(maxBackoff, baseBackoff * 2^n)` with jitter fraction `j / den`,
scaled by `den`. -/
def backoffValue (base maxB den n j : Nat) : Nat :=
  min (maxB * den) (base * 2 ^ n * (den + j))

/-- Modelled from the spec: the failure transition of §4.3. -/
def onFailure (base maxB den now : Nat) (st : UpdateState) (j : Nat) : UpdateState :=
  let n := st.consecutiveFailures + 1
  let b := backoffValue base maxB den n j
  { consecutiveFailures := n, currentBackoff := b, nextUpdateTime := now + b }

/-- Modelled from the spec: the success transition of §4.3 — failures reset to
0, the backoff to its baseline, and the next update follows the server hint. -/
def onSuccess (base den now wait : Nat) (_st : UpdateState) : UpdateState :=
  { consecutiveFailures := 0, currentBackoff := base * den, nextUpdateTime := now + wait }

/-! ### Server shutdown coordination

Modelled from the spec: `cmd/wrserver`'s `runServer` is not available here
(only its test is); §5's shutdown policy is a transition system — a submit is
accepted only while no termination signal has arrived and is rejected once one
has; the server exits only when signalled and with no request in flight. -/

structure ServerState where
  signalled : Bool
  inFlight : List Nat
  accepted : List Nat
  completed : List Nat
  rejected : List Nat
  exited : Bool

def initialServer : ServerState :=
  { signalled := false, inFlight := [], accepted := [], completed := [], rejected := [],
    exited := false }

inductive ServerEvent where
  | submit (id : Nat)
  | signal
  | finish (id : Nat)
  | exitServer

inductive ServerStep : ServerState → ServerEvent → ServerState → Prop where
  | accept (s : ServerState) (id : Nat) :
      s.signalled = false → s.exited = false →
      ServerStep s (.submit id)
        { s with inFlight := id :: s.inFlight, accepted := id :: s.accepted }
  | reject (s : ServerState) (id : Nat) :
      s.signalled = true →
      ServerStep s (.submit id) { s with rejected := id :: s.rejected }
  | signal (s : ServerState) :
      ServerStep s .signal { s with signalled := true }
  | finish (s : ServerState) (id : Nat) :
      id ∈ s.inFlight →
      ServerStep s (.finish id)
        { s with inFlight := s.inFlight.erase id, completed := id :: s.completed }
  | exitServer (s : ServerState) :
      s.signalled = true → s.inFlight = [] →
      ServerStep s .exitServer { s with exited := true }

inductive ServerRun : ServerState → List ServerEvent → ServerState → Prop where
  | nil (s : ServerState) : ServerRun s [] s
  | cons {s s' s'' : ServerState} {e : ServerEvent} {es : List ServerEvent} :
      ServerStep s e s' → ServerRun s' es s'' → ServerRun s (e :: es) s''

/-! ### LookupEngine server confirmation

Modelled from the spec: the repository's `webrisk.go` lookup engine is not
available here; §4.5 — candidates that hit the `ResultCache` need no network
access, the rest are confirmed through the `api` boundary of the source, whose
`HashLookup` carries exactly one `hash_prefix` parameter per call, so the
engine issues one call per distinct locally matched prefix. -/

structure LookupCandidate where
  fullHash : List Nat
  matchedPrefixes : List (List Nat)
  cached : Bool
  deriving DecidableEq

/-- First-occurrence de-duplication with an accumulator of already seen keys. -/
def dedupAcc : List (List Nat) → List (List Nat) → List (List Nat)
  | [], _ => []
  | x :: xs, seen =>
    if x ∈ seen then dedupAcc xs seen else x :: dedupAcc xs (x :: seen)

/-- The distinct prefixes that matched locally for candidates not served by the
cache — exactly the prefixes that must be confirmed by the server. -/
def distinctMatchedPrefixes (cands : List LookupCandidate) : List (List Nat) :=
  dedupAcc ((cands.filter (fun c => c.cached = false)).flatMap
    (fun c => c.matchedPrefixes)) []

/-- The `HashLookup` request queries issued by one `CheckURL` invocation:
one per distinct matched prefix, built by `netAPI.HashLookup`. -/
def checkURLRequests (apiKey : String) (tts : List ThreatType)
    (cands : List LookupCandidate) : List Values :=
  (distinctMatchedPrefixes cands).map (fun p => hashLookupQuery (baseQuery apiKey) p tts)

/-- Number of `HashLookup` network calls issued by one `CheckURL` invocation. -/
def checkURLCallCount (cands : List LookupCandidate) : Nat :=
  (distinctMatchedPrefixes cands).length

/-! ### SHA-256 test vectors (FIPS 180-4) -/

theorem sha256_empty_vector :
    sha256 [] =
      [0xe3, 0xb0, 0xc4, 0x42, 0x98, 0xfc, 0x1c, 0x14, 0x9a, 0xfb, 0xf4, 0xc8,
       0x99, 0x6f, 0xb9, 0x24, 0x27, 0xae, 0x41, 0xe4, 0x64, 0x9b, 0x93, 0x4c,
       0xa4, 0x95, 0x99, 0x1b, 0x78, 0x52, 0xb8, 0x55] := by decide

theorem sha256_abc_vector :
    sha256 [0x61, 0x62, 0x63] =
      [0xba, 0x78, 0x16, 0xbf, 0x8f, 0x01, 0xcf, 0xea, 0x41, 0x41, 0x40, 0xde,
       0x5d, 0xae, 0x22, 0x23, 0xb0, 0x03, 0x61, 0xa3, 0x96, 0x17, 0x7a, 0x9c,
       0xb4, 0x10, 0xff, 0x61, 0xf2, 0x00, 0x15, 0xad] := by decide

/-! ### Lemmas on query values -/

theorem Values.get_set_self (q : Values) (k v : String) : (q.set k v).get k = some [v] := by
  induction q with
  | nil => simp [Values.set, Values.get]
  | cons p rest ih =>
    obtain ⟨k', vs⟩ := p
    by_cases h : k' = k
    · simp [Values.set, Values.get, h]
    · simp [Values.set, Values.get, h, ih]

theorem Values.get_set_ne (q : Values) (k k' v : String) (h : k' ≠ k) :
    (q.set k v).get k' = q.get k' := by
  induction q with
  | nil => simp [Values.set, Values.get, Ne.symm h]
  | cons p rest ih =>
    obtain ⟨k'', vs⟩ := p
    by_cases h2 : k'' = k
    · subst h2
      simp [Values.set, Values.get, Ne.symm h]
    · simp [Values.set, Values.get, h2, ih]

theorem Values.get_add_ne (q : Values) (k k' v : String) (h : k' ≠ k) :
    (q.add k v).get k' = q.get k' := by
  induction q with
  | nil => simp [Values.add, Values.get, Ne.symm h]
  | cons p rest ih =>
    obtain ⟨k'', vs⟩ := p
    by_cases h2 : k'' = k
    · subst h2
      simp [Values.add, Values.get, Ne.symm h]
    · simp [Values.add, Values.get, h2, ih]

theorem get_foldl_add_ne {β : Type} (f : β → String) (k0 k : String) (h : k ≠ k0)
    (l : List β) (q : Values) :
    (l.foldl (fun q x => q.add k0 (f x)) q).get k = q.get k := by
  induction l generalizing q with
  | nil => rfl
  | cons x xs ih => simp only [List.foldl_cons]; rw [ih, Values.get_add_ne _ _ _ _ h]

/-! ### Claim theorems: transport layer -/

/-- Claim C10: the `version_token` query parameter of a `ListUpdate` request is
present exactly when the supplied version token is non-empty, and then holds
the standard base64 encoding of the token; an empty token yields a request
with no `version_token` parameter. -/
theorem listUpdate_version_token (apiKey : String) (req : ComputeThreatListDiffRequest) :
    (req.versionToken = [] →
      (listUpdateQuery (baseQuery apiKey) req).get versionTokenString = none) ∧
    (req.versionToken ≠ [] →
      (listUpdateQuery (baseQuery apiKey) req).get versionTokenString
        = some [base64Std req.versionToken]) := by
  have hvs : versionTokenString ≠ supportedCompressionsString := by decide
  constructor
  · intro hempty
    simp only [listUpdateQuery]
    rw [if_neg (by simp [hempty])]
    rw [get_foldl_add_ne _ _ _ hvs]
    rw [Values.get_set_ne _ _ _ _ (by decide)]
    simp only [baseQuery, Values.set, Values.get]
    rw [if_neg (by decide)]
  · intro hne
    simp only [listUpdateQuery]
    rw [if_pos (by simpa using hne)]
    rw [get_foldl_add_ne _ _ _ hvs]
    exact Values.get_set_self _ _ _

/-- Claim C10 witness: a concrete non-empty token appears base64-encoded. -/
theorem listUpdate_version_token_witness :
    (listUpdateQuery (baseQuery "fizzbuzz")
      { threatType := .malware, versionToken := [1, 2, 3], constraints := none }).get
        versionTokenString = some [base64Std [1, 2, 3]] :=
  (listUpdate_version_token "fizzbuzz"
    { threatType := .malware, versionToken := [1, 2, 3], constraints := none }).2 (by decide)

/-- The `ListUpdate` request of `TestNetAPI` (api_test.go): MALWARE, empty
version token, all three compression types, `maxDiffEntries` and
`maxDatabaseEntries` both 1024. -/
def testNetAPIRequest : ComputeThreatListDiffRequest :=
  { threatType := .malware, versionToken := [],
    constraints := some { maxDiffEntries := 1024, maxDatabaseEntries := 1024,
                          supportedCompressions := [.unspecified, .raw, .rice] } }

/-- Claim C1: evaluated at the request of `TestNetAPI`, the query built by
`netAPI.ListUpdate` carries only the API key, the threat type and the
supported compressions — no parameter under any name carries the request's
`maxDiffEntries = 1024` or `maxDatabaseEntries = 1024`, although the test
requires both to reach the server. -/
theorem listUpdate_query_omits_max_entries :
    (listUpdateQuery (baseQuery "fizzbuzz") testNetAPIRequest).keys
      = ["key", threatTypeString, supportedCompressionsString] := by decide

/-- Claim C3: for every response whose status code is not 200, `doRequest`
returns `parseError`'s error and never unmarshals the body into the result
message; when the body decodes as the error proto, the error carries the
response code together with the decoded status and message. -/
theorem doRequest_non200 {α : Type} (resp : HTTPResponse α) (h : resp.statusCode ≠ 200) :
    doRequest resp = .error (parseError resp.statusCode resp.errBody) ∧
    (∀ st msg, resp.errBody = some (st, msg) →
      doRequest resp = .error (.serverResponse resp.statusCode st msg)) := by
  have h1 : doRequest resp = .error (parseError resp.statusCode resp.errBody) := by
    unfold doRequest
    rw [if_pos h]
  refine ⟨h1, fun st msg hb => ?_⟩
  rw [h1, hb]
  rfl

/-- Claim C3 witness: the 400 response of `TestParseError` with a decodable
body yields the structured error, even though a result body is present. -/
theorem doRequest_non200_witness :
    doRequest { statusCode := 400,
                errBody := some ("INVALID_ARGUMENT", "API key not valid"),
                resultBody := some () }
      = .error (.serverResponse 400 "INVALID_ARGUMENT" "API key not valid") :=
  (doRequest_non200
    { statusCode := 400, errBody := some ("INVALID_ARGUMENT", "API key not valid"),
      resultBody := some () } (by decide)).2 _ _ rfl

/-! ### Claim theorems: result cache -/

/-- Claim C7: after `Store(h, T, ttl)`, a `Lookup(h)` strictly before the
expiry returns `Hit T`, a `Lookup(h)` at or after the expiry returns `Miss`,
and an entry with an empty threat-type set is still a `Hit`, never a `Miss`. -/
theorem cache_roundtrip (c : ResultCache) (now : Nat) (fh : List Nat)
    (tts : List ThreatType) (ttl t : Nat) (_httl : 0 < ttl) :
    (t < now + ttl → cacheLookup (cacheStore c now fh tts ttl) t fh = .hit tts) ∧
    (now + ttl ≤ t → cacheLookup (cacheStore c now fh tts ttl) t fh = .miss) ∧
    (t < now + ttl → cacheLookup (cacheStore c now fh [] ttl) t fh ≠ .miss) := by
  refine ⟨fun ht => ?_, fun ht => ?_, fun ht => ?_⟩
  · simp [cacheLookup, cacheStore, cacheFind, ht]
  · simp [cacheLookup, cacheStore, cacheFind, Nat.not_lt.mpr ht]
  · simp [cacheLookup, cacheStore, cacheFind, ht]

/-- Claim C7 witness: a stored entry is a hit before expiry. -/
theorem cache_roundtrip_witness :
    cacheLookup (cacheStore [] 0 [1, 2] [.malware] 300) 299 [1, 2] = .hit [.malware] :=
  (cache_roundtrip [] 0 [1, 2] [.malware] 300 299 (by decide)).1 (by decide)

/-! ### Claim theorems: scheduler backoff -/

/-- Claim C8: across two consecutive failures the jittered, capped backoff is
non-decreasing (for any jitter fractions below one), each failure increments
`consecutiveFailures`, and a success resets `consecutiveFailures` to 0 and the
backoff to its baseline. -/
theorem backoff_monotone_reset (base maxB den now now' wait : Nat) (st : UpdateState)
    (j j' : Nat) (hj : j < den) :
    (onFailure base maxB den now st j).currentBackoff ≤
      (onFailure base maxB den now' (onFailure base maxB den now st j) j').currentBackoff ∧
    (onFailure base maxB den now st j).consecutiveFailures = st.consecutiveFailures + 1 ∧
    (onSuccess base den now' wait st).consecutiveFailures = 0 ∧
    (onSuccess base den now' wait st).currentBackoff = base * den := by
  refine ⟨?_, rfl, rfl, rfl⟩
  show backoffValue base maxB den (st.consecutiveFailures + 1) j ≤
    backoffValue base maxB den (st.consecutiveFailures + 1 + 1) j'
  unfold backoffValue
  refine min_le_min (le_refl _) ?_
  have h2 : den + j ≤ 2 * (den + j') := by omega
  calc base * 2 ^ (st.consecutiveFailures + 1) * (den + j)
      ≤ base * 2 ^ (st.consecutiveFailures + 1) * (2 * (den + j')) :=
        Nat.mul_le_mul_left _ h2
    _ = base * 2 ^ (st.consecutiveFailures + 1 + 1) * (den + j') := by ring

/-- A concrete scheduler state for exercising the backoff transitions. -/
def schedulerStateW : UpdateState :=
  { consecutiveFailures := 0, currentBackoff := 60000, nextUpdateTime := 0 }

/-- Claim C8 witness: concrete consecutive failures with opposed jitters still
give a non-decreasing backoff, and a success resets the counters. -/
theorem backoff_monotone_reset_witness :
    (onFailure 60 960 1000 0 schedulerStateW 999).currentBackoff ≤
      (onFailure 60 960 1000 5 (onFailure 60 960 1000 0 schedulerStateW 999) 0).currentBackoff ∧
    (onFailure 60 960 1000 0 schedulerStateW 999).consecutiveFailures
      = schedulerStateW.consecutiveFailures + 1 ∧
    (onSuccess 60 1000 5 1800 schedulerStateW).consecutiveFailures = 0 ∧
    (onSuccess 60 1000 5 1800 schedulerStateW).currentBackoff = 60 * 1000 :=
  backoff_monotone_reset 60 960 1000 0 5 1800 schedulerStateW 999 0 (by decide)

/-! ### Claim theorems: candidate expressions -/

theorem length_flatMap_le {α β : Type} (l : List α) (f : α → List β) (m : Nat)
    (h : ∀ a ∈ l, (f a).length ≤ m) : (l.flatMap f).length ≤ l.length * m := by
  induction l with
  | nil => simp
  | cons a t ih =>
    simp only [List.flatMap_cons, List.length_append, List.length_cons]
    have ha := h a (by simp)
    have ht := ih (fun x hx => h x (by simp [hx]))
    calc (f a).length + (t.flatMap f).length ≤ m + t.length * m := Nat.add_le_add ha ht
      _ = (t.length + 1) * m := by ring

theorem hostVariants_length_le (labels : List String) : (hostVariants labels).length ≤ 5 := by
  simp only [hostVariants, List.length_cons]
  have h1 : (trailingSuffixes labels).length ≤ 4 := by
    calc (trailingSuffixes labels).length
        ≤ ((List.range 4).map (fun i => labels.drop (labels.length - (i + 2)))).length :=
          List.length_filter_le _ _
      _ = 4 := by simp
  omega

theorem pathVariants_length_le (segs : List String) (query : Option String) :
    (pathVariants segs query).length ≤ 6 := by
  simp only [pathVariants, List.length_cons, List.length_take]
  omega

/-- Claim C6: `CandidateExpressions` yields at most 30 expressions (at most
5 host variants times 6 path/query variants) and always contains the full
canonical host followed by the full path plus query. -/
theorem candidateExpressions_bounded (u : CanonicalURL) :
    (candidateExpressions u).length ≤ 30 ∧
    hostString u.hostLabels ++ fullPathQuery u.pathSegments u.query ∈ candidateExpressions u := by
  constructor
  · have h1 := length_flatMap_le (hostVariants u.hostLabels)
      (fun hv => (pathVariants u.pathSegments u.query).map (fun pv => hostString hv ++ pv)) 6
      (fun a _ => by
        simpa using pathVariants_length_le u.pathSegments u.query)
    have h2 := hostVariants_length_le u.hostLabels
    calc (candidateExpressions u).length
        ≤ (hostVariants u.hostLabels).length * 6 := h1
      _ ≤ 5 * 6 := Nat.mul_le_mul_right _ h2
      _ = 30 := rfl
  · apply List.mem_flatMap.mpr
    refine ⟨u.hostLabels, by simp [hostVariants], ?_⟩
    exact List.mem_map.mpr ⟨fullPathQuery u.pathSegments u.query, by simp [pathVariants], rfl⟩

/-! ### Claim theorems: lookup engine call pattern -/

theorem not_mem_dedupAcc (l seen : List (List Nat)) (x : List Nat) (hx : x ∈ seen) :
    x ∉ dedupAcc l seen := by
  induction l generalizing seen with
  | nil => simp [dedupAcc]
  | cons y ys ih =>
    simp only [dedupAcc]
    by_cases hy : y ∈ seen
    · simpa [hy] using ih seen hx
    · simp only [hy, if_false]
      intro hmem
      rcases List.mem_cons.mp hmem with rfl | hmem2
      · exact hy hx
      · exact ih (y :: seen) (List.mem_cons_of_mem _ hx) hmem2

theorem dedupAcc_nodup (l seen : List (List Nat)) : (dedupAcc l seen).Nodup := by
  induction l generalizing seen with
  | nil => simp [dedupAcc]
  | cons y ys ih =>
    simp only [dedupAcc]
    by_cases hy : y ∈ seen
    · simpa [hy] using ih seen
    · simp only [hy, if_false]
      exact List.nodup_cons.mpr ⟨not_mem_dedupAcc ys (y :: seen) y (by simp), ih (y :: seen)⟩

theorem mem_dedupAcc_of_mem (l seen : List (List Nat)) (x : List Nat) (hx : x ∈ l) :
    x ∈ dedupAcc l seen ∨ x ∈ seen := by
  induction l generalizing seen with
  | nil => simp at hx
  | cons y ys ih =>
    simp only [dedupAcc]
    rcases List.mem_cons.mp hx with rfl | hx2
    · by_cases hy : x ∈ seen
      · right
        exact hy
      · left
        simp [hy]
    · by_cases hy : y ∈ seen
      · simpa [hy] using ih seen hx2
      · simp only [hy, if_false]
        rcases ih (y :: seen) hx2 with h | h
        · exact Or.inl (List.mem_cons_of_mem _ h)
        · rcases List.mem_cons.mp h with rfl | h2
          · exact Or.inl (List.mem_cons_self _ _)
          · exact Or.inr h2

/-- Claim C2 counterexample: two candidates whose local matches are two
distinct prefixes force two `HashLookup` calls in one `CheckURL` invocation —
the claimed bound of at most one batched call is violated. -/
theorem checkURL_two_prefixes_two_calls :
    ¬ (checkURLCallCount
        [{ fullHash := [1, 1, 1, 1], matchedPrefixes := [[1, 2, 3, 4]], cached := false },
         { fullHash := [2, 2, 2, 2], matchedPrefixes := [[5, 6, 7, 8]], cached := false }] ≤ 1) := by
  decide

/-- Claim C2 (amended): one `CheckURL` invocation issues one `HashLookup` call
per distinct locally matched prefix of the non-cached candidates — zero calls
when every candidate is a cache hit or has no local prefix match; candidates
sharing a prefix are grouped into the same call (the confirmed prefixes carry
no duplicates yet cover every matched prefix), and each call's query carries
exactly one `hash_prefix` value, the base64 encoding of that prefix. -/
theorem checkURL_one_call_per_pfx (apiKey : String) (tts : List ThreatType)
    (cands : List LookupCandidate) :
    ((∀ c ∈ cands, c.cached = true ∨ c.matchedPrefixes = []) → checkURLCallCount cands = 0) ∧
    (checkURLRequests apiKey tts cands).length = checkURLCallCount cands ∧
    (distinctMatchedPrefixes cands).Nodup ∧
    (∀ c ∈ cands, c.cached = false → ∀ p ∈ c.matchedPrefixes,
      p ∈ distinctMatchedPrefixes cands) ∧
    (∀ p ∈ distinctMatchedPrefixes cands,
      (hashLookupQuery (baseQuery apiKey) p tts).get hashPrefixString
        = some [base64Std p]) := by
  refine ⟨?_, ?_, dedupAcc_nodup _ _, ?_, ?_⟩
  · intro hall
    have hflat : (cands.filter (fun c => c.cached = false)).flatMap
        (fun c => c.matchedPrefixes) = [] := by
      rw [List.flatMap_eq_nil_iff]
      intro c hc
      have hc2 := List.mem_filter.mp hc
      rcases hall c hc2.1 with h | h
      · rw [h] at hc2
        simp at hc2
      · exact h
    have hdp : distinctMatchedPrefixes cands = [] := by
      unfold distinctMatchedPrefixes
      rw [hflat]
      rfl
    simp [checkURLCallCount, hdp]
  · simp [checkURLRequests, checkURLCallCount]
  · intro c hc hnc p hp
    have hcf : c ∈ cands.filter (fun c => c.cached = false) :=
      List.mem_filter.mpr ⟨hc, by simp [hnc]⟩
    have hmem : p ∈ (cands.filter (fun c => c.cached = false)).flatMap
        (fun c => c.matchedPrefixes) :=
      List.mem_flatMap.mpr ⟨c, hcf, hp⟩
    rcases mem_dedupAcc_of_mem _ [] p hmem with h | h
    · exact h
    · simp at h
  · intro p _
    simp only [hashLookupQuery]
    rw [get_foldl_add_ne _ _ _ (by decide)]
    exact Values.get_set_self _ _ _

/-- Claim C2 witness (amended): when every candidate is served by the cache,
`CheckURL` makes zero network calls. -/
theorem checkURL_zero_calls_witness :
    checkURLCallCount
      [{ fullHash := [1, 1, 1, 1], matchedPrefixes := [[1, 2, 3, 4]], cached := true }] = 0 :=
  (checkURL_one_call_per_pfx "fizzbuzz" [.malware]
    [{ fullHash := [1, 1, 1, 1], matchedPrefixes := [[1, 2, 3, 4]], cached := true }]).1
    (by decide)

/-! ### Claim theorems: ThreatList diff application -/

theorem applyDiff_ok_invariant {l : ThreatList} {d : ThreatDiff} {l' : ThreatList}
    (h : l.applyDiff d = .ok l') : listInvariant l' := by
  unfold ThreatList.applyDiff at h
  by_cases h1 : (d.removals.all (fun i => decide (i < l.prefixes.length))) = true
  · rw [if_pos h1] at h
    by_cases h2 : sha256 (mergeResult l d).flatten = d.newChecksum
    · rw [if_pos h2] at h
      cases h
      refine ⟨h2.symm, ?_⟩
      have hchain : ((removeIndices l.prefixes d.removals ++ d.additions).insertionSort
          byteLe).destutter byteLt |>.Chain' byteLt :=
        List.destutter_is_chain' byteLt _
      exact List.chain'_iff_pairwise.mp hchain
    · rw [if_neg h2] at h
      cases h
  · rw [if_neg h1] at h
    cases h

/-- Claim C5: every ThreatList produced by a non-empty sequence of successful
`ApplyDiff` steps satisfies the invariant — its checksum equals the SHA-256 of
its concatenated prefixes and its prefixes are strictly ascending (hence
unique) in lexicographic order. -/
theorem applyDiffs_invariant (l : ThreatList) (ds : List ThreatDiff) (l' : ThreatList)
    (hne : ds ≠ []) (h : applyDiffs l ds = .ok l') : listInvariant l' := by
  induction ds generalizing l with
  | nil => exact absurd rfl hne
  | cons d ds2 ih =>
    unfold applyDiffs at h
    cases hd : l.applyDiff d with
    | error e =>
      rw [hd] at h
      exact absurd h (by simp)
    | ok l1 =>
      rw [hd] at h
      cases ds2 with
      | nil =>
        simp only [applyDiffs] at h
        cases h
        exact applyDiff_ok_invariant hd
      | cons d2 ds3 => exact ih _ (by simp) h

/-- The spec §8 scenario list `[0x0A, 0x0B, 0x0C]`. -/
def scenarioList : ThreatList :=
  { prefixes := [[0x0A], [0x0B], [0x0C]], versionToken := [],
    checksum := sha256 [0x0A, 0x0B, 0x0C] }

/-- The spec §8 scenario diff: `removals = [1]`, `additions = [0x0D]`, with
the checksum of the expected result `[0x0A, 0x0C, 0x0D]`. -/
def scenarioDiff : ThreatDiff :=
  { removals := [1], additions := [[0x0D]], newVersionToken := [7],
    newChecksum := sha256 [0x0A, 0x0C, 0x0D] }

/-- The spec §8 scenario result list `[0x0A, 0x0C, 0x0D]`. -/
def scenarioResult : ThreatList :=
  { prefixes := [[0x0A], [0x0C], [0x0D]], versionToken := [7],
    checksum := sha256 [0x0A, 0x0C, 0x0D] }

/-- Claim C5 witness: the spec §8 scenario diff succeeds and the result
satisfies the invariant. -/
theorem applyDiffs_invariant_witness :
    applyDiffs scenarioList [scenarioDiff] = .ok scenarioResult ∧
    listInvariant scenarioResult :=
  have h : applyDiffs scenarioList [scenarioDiff] = .ok scenarioResult := by decide
  ⟨h, applyDiffs_invariant scenarioList [scenarioDiff] scenarioResult (by simp) h⟩

/-- Claim C4: when the checksum recomputed over the merged sorted result
differs from the diff's advertised checksum, `ApplyDiff` returns
`ChecksumMismatchError` and the database keeps the prior list completely
unmodified — no removal or addition is applied. -/
theorem applyDiff_mismatch_atomic (db : Database) (tt : ThreatType) (d : ThreatDiff)
    (hidx : (d.removals.all (fun i => decide (i < (db tt).prefixes.length))) = true)
    (hck : sha256 (mergeResult (db tt) d).flatten ≠ d.newChecksum) :
    (db tt).applyDiff d = .error .checksumMismatch ∧ Database.update db tt d = db := by
  have h1 : (db tt).applyDiff d = .error .checksumMismatch := by
    unfold ThreatList.applyDiff
    rw [if_pos hidx, if_neg hck]
  refine ⟨h1, ?_⟩
  unfold Database.update
  rw [h1]

/-- A concrete database holding the spec §8 scenario list for every threat type. -/
def scenarioDatabase : Database := fun _ => scenarioList

/-- The spec §8 scenario diff with a corrupted (empty) advertised checksum. -/
def corruptDiff : ThreatDiff :=
  { removals := [1], additions := [[0x0D]], newVersionToken := [7], newChecksum := [] }

/-- Claim C4 witness: a corrupted checksum is detected and the database is
left untouched. -/
theorem applyDiff_mismatch_atomic_witness :
    (scenarioDatabase .malware).applyDiff corruptDiff = .error .checksumMismatch ∧
    Database.update scenarioDatabase .malware corruptDiff = scenarioDatabase :=
  applyDiff_mismatch_atomic scenarioDatabase .malware corruptDiff (by decide) (by decide)

/-! ### Claim theorems: server shutdown -/

/-- The shutdown invariant: an exited server is signalled with nothing in
flight, and every accepted request is still in flight or already completed. -/
def serverInvariant (s : ServerState) : Prop :=
  (s.exited = true → s.signalled = true ∧ s.inFlight = []) ∧
  (∀ id, id ∈ s.accepted → id ∈ s.inFlight ∨ id ∈ s.completed)

theorem serverStep_invariant {s : ServerState} {e : ServerEvent} {s' : ServerState}
    (hstep : ServerStep s e s') (hinv : serverInvariant s) : serverInvariant s' := by
  cases hstep with
  | accept id hns hne =>
    refine ⟨fun hex => ?_, fun id2 hid2 => ?_⟩
    · have h0 : s.exited = true := by simpa using hex
      rw [hne] at h0
      cases h0
    · rcases List.mem_cons.mp hid2 with rfl | h2
      · exact Or.inl (List.mem_cons_self _ _)
      · rcases hinv.2 id2 h2 with h | h
        · exact Or.inl (List.mem_cons_of_mem _ h)
        · exact Or.inr h
  | reject id hsig => exact ⟨fun hex => (hinv.1 hex), hinv.2⟩
  | signal =>
    exact ⟨fun hex => ⟨rfl, (hinv.1 hex).2⟩, hinv.2⟩
  | finish id hin =>
    refine ⟨fun hex => ?_, fun id2 hid2 => ?_⟩
    · have h0 := hinv.1 hex
      rw [h0.2] at hin
      simp at hin
    · rcases hinv.2 id2 hid2 with h | h
      · by_cases he : id2 = id
        · subst he
          exact Or.inr (List.mem_cons_self _ _)
        · exact Or.inl (List.mem_erase_of_ne he |>.mpr h)
      · exact Or.inr (List.mem_cons_of_mem _ h)
  | exitServer hsig hfl =>
    exact ⟨fun _ => ⟨hsig, hfl⟩, hinv.2⟩

theorem serverRun_invariant {s : ServerState} {es : List ServerEvent} {s' : ServerState}
    (hrun : ServerRun s es s') (hinv : serverInvariant s) : serverInvariant s' := by
  induction hrun with
  | nil _ => exact hinv
  | cons hstep _ ih => exact ih (serverStep_invariant hstep hinv)

/-- Claim C9: in any run from the initial server state that ends exited,
every request accepted before the termination signal has run to completion
(its id is among the completed ones), and once the signal has arrived any
submitted request is rejected rather than accepted — no step after the signal
admits a new request. -/
theorem shutdown_graceful (es : List ServerEvent) (s : ServerState)
    (hrun : ServerRun initialServer es s) (hexit : s.exited = true) :
    (∀ id, id ∈ s.accepted → id ∈ s.completed) ∧
    (∀ (t : ServerState) (id : Nat) (t' : ServerState),
        t.signalled = true → ServerStep t (.submit id) t' →
        t'.accepted = t.accepted ∧ id ∈ t'.rejected) := by
  have hinit : serverInvariant initialServer := by
    refine ⟨fun hex => ?_, fun id hid => ?_⟩
    · simp [initialServer] at hex
    · simp [initialServer] at hid
  have hinv := serverRun_invariant hrun hinit
  refine ⟨fun id hid => ?_, fun t id t' hsig hstep => ?_⟩
  · rcases hinv.2 id hid with h | h
    · rw [(hinv.1 hexit).2] at h
      simp at h
    · exact h
  · cases hstep with
    | accept id2 hns hne => rw [hsig] at hns; cases hns
    | reject id2 hs => exact ⟨rfl, List.mem_cons_self _ _⟩

/-- The concrete shutdown scenario of `TestServerShutdown`: one request is
accepted, the signal arrives, the request finishes, the server exits. -/
def shutdownEventsW : List ServerEvent := [.submit 1, .signal, .finish 1, .exitServer]

/-- The state reached by `shutdownEventsW`. -/
def shutdownFinalW : ServerState :=
  { signalled := true, inFlight := [], accepted := [1], completed := [1], rejected := [],
    exited := true }

/-- Claim C9 witness: in the `TestServerShutdown` scenario the accepted request
completes and a post-signal submit is rejected. -/
theorem shutdown_graceful_witness :
    (∀ id, id ∈ shutdownFinalW.accepted → id ∈ shutdownFinalW.completed) ∧
    (∀ (t : ServerState) (id : Nat) (t' : ServerState),
        t.signalled = true → ServerStep t (.submit id) t' →
        t'.accepted = t.accepted ∧ id ∈ t'.rejected) := by
  refine shutdown_graceful shutdownEventsW shutdownFinalW ?_ rfl
  refine ServerRun.cons (ServerStep.accept initialServer 1 rfl rfl) ?_
  refine ServerRun.cons (ServerStep.signal _) ?_
  refine ServerRun.cons (ServerStep.finish _ 1 (by simp [initialServer])) ?_
  refine ServerRun.cons (ServerStep.exitServer _ rfl (by simp [initialServer])) ?_
  exact ServerRun.nil _

end Webrisk
